import Mathlib

/-!
Verification of the DayFlow timeline engine.

This file shallowly embeds the core logic of the DayFlow schedule builder
(`src/src/DayFlowPreview.tsx` and `src/unnamed/part_000`): pixel-to-minute
conversion with clamping and snapping, the drag/drop and editor mutations on
the item list, the greedy lane layout, palette application, and the text and
calendar exporters.  JavaScript numbers appearing in pixel arithmetic are
modelled as exact rationals; integer quantities (minutes) as `Int`;
JavaScript's `Math.round` as floor of `x + 1/2` (round half toward plus
infinity), computed with the executable `Rat.floor`.

The file is organised as definitions first (the embedding), then theorems.
-/

namespace DayFlow

/-- A scheduled timeline item (`interface Item` in the source).  `notes` is
optional in the source; the empty string stands for a missing value. -/
structure Item where
  id : String
  title : String
  startMin : Int
  durationMin : Int
  color : String
  notes : String
deriving DecidableEq, Repr

/-- A preset catalog entry (`interface PresetDef`).  `color` is optional in
the source; the empty string stands for a missing value. -/
structure PresetDef where
  key : String
  label : String
  standardMin : Int
  color : String
deriving DecidableEq, Repr

/-- The color `BRAND.sand`, the fallback used when a preset has no color. -/
def sandColor : String := "#8F7A4A"

/-- The preset catalog (`const PRESETS` in `src/unnamed/part_000`). -/
def PRESETS : List PresetDef := [
  { key := "bride-ready", label := "Bride Getting Ready", standardMin := 30, color := "#D5654D" },
  { key := "groom-ready", label := "Groom Getting Ready", standardMin := 30, color := "#8BAB7C" },
  { key := "couples-portraits", label := "Couples Portraits", standardMin := 30, color := "#01363b" },
  { key := "party-photos", label := "Wedding Party Photos", standardMin := 30, color := "#555555" },
  { key := "family-formals", label := "Family Formals", standardMin := 30, color := "#8F7A4A" },
  { key := "first-look", label := "First Look", standardMin := 15, color := "#27402c" },
  { key := "ceremony", label := "Ceremony", standardMin := 30, color := "#01363b" },
  { key := "first-dance", label := "First Dance", standardMin := 10, color := "#27402c" },
  { key := "fd-dance", label := "Father/Daughter Dance", standardMin := 5, color := "#8F7A4A" },
  { key := "ms-dance", label := "Mother/Son Dance", standardMin := 5, color := "#01363b" },
  { key := "md-dance", label := "Mother/Daughter Dance", standardMin := 5, color := "#555555" },
  { key := "sfd-dance", label := "Step-Father/Daughter Dance", standardMin := 5, color := "#8F7A4A" },
  { key := "bouquet", label := "Bouquet Toss", standardMin := 5, color := "#27402c" },
  { key := "garter", label := "Garter Toss", standardMin := 30, color := "#01363b" },
  { key := "grand-exit", label := "Grand Exit", standardMin := 10, color := "#555555" },
  { key := "travel", label := "Travel Buffer", standardMin := 20, color := "#8F7A4A" },
  { key := "custom", label := "Custom Item", standardMin := 15, color := "#27402c" } ]

/-- The color actually given to a dropped item: `preset.color || BRAND.sand`. -/
def presetColor (p : PresetDef) : String := if p.color = "" then sandColor else p.color

/-- The utility `clamp(n, min, max) = Math.max(min, Math.min(max, n))`. -/
def clamp (n lo hi : Int) : Int := max lo (min hi n)

/-- JavaScript's `Math.round` on an exact rational: round half toward plus
infinity, `⌊x + 1/2⌋`, computed with the executable `Rat.floor`. -/
def mathRound (q : ℚ) : ℤ := (q + 1/2).floor

/-- Snapping an offset to the grid: `Math.round(x / slotSize) * slotSize`. -/
def snapTo (x slot : Int) : Int := mathRound ((x : ℚ) / (slot : ℚ)) * slot

/-- The utility `minutesBetween(start, end)` on parsed `HH:mm` components. -/
def minutesBetween (sh sm eh em : Int) : Int := eh * 60 + em - (sh * 60 + sm)

/-- The schedule length
`totalMinutes = clamp(minutesBetween(startTime, endTime), 60, 18 * 60)`. -/
def totalMinutesOf (sh sm eh em : Int) : Int :=
  clamp (minutesBetween sh sm eh em) 60 (18 * 60)

/-- The schedule configuration consumed by the drag handler: the clamped
schedule length, the snapping slot size, the snap toggle and the vertical
pixel scale. -/
structure Config where
  totalMinutes : Int
  slotSize : Int
  snap : Bool
  pxPerMin : ℚ

/-- The pixel-to-offset conversion of `handleDragEnd` before snapping:
`relY = Math.max(0, Math.min(gridHeight, pointerY - rect.top))` with
`gridHeight = totalMinutes * pxPerMin`, then
`offsetMin = Math.round(relY / pxPerMin)`. -/
def rawOffset (cfg : Config) (pointerY top : ℚ) : ℤ :=
  mathRound (max 0 (min ((cfg.totalMinutes : ℚ) * cfg.pxPerMin) (pointerY - top)) / cfg.pxPerMin)

/-- The full pixel-to-offset conversion of `handleDragEnd`:
`if (snap) offsetMin = Math.round(offsetMin / slotSize) * slotSize`. -/
def dropOffset (cfg : Config) (pointerY top : ℚ) : ℤ :=
  if cfg.snap then snapTo (rawOffset cfg pointerY top) cfg.slotSize
  else rawOffset cfg pointerY top

/-- The configuration used by the concrete tests: day `11:00`–`20:00`
(540 minutes), 15-minute slots, snapping on, 2 pixels per minute. -/
def cfg540 : Config :=
  { totalMinutes := totalMinutesOf 11 0 20 0, slotSize := 15, snap := true, pxPerMin := 2 }

/-- The item created when a preset is dropped (`handleDragEnd`, preset branch).
The random `uuid()` is supplied as an oracle argument. -/
def mkDropItem (p : PresetDef) (newId : String) (off : Int) : Item :=
  { id := newId, title := p.label, startMin := off, durationMin := p.standardMin,
    color := presetColor p, notes := "" }

/-- The editor Save action `upsertItem(u)`: replace the item whose id matches. -/
def upsertItem (st : List Item) (u : Item) : List Item :=
  st.map fun i => if i.id = u.id then u else i

/-- One user operation on the schedule: dropping a preset (insert), dragging an
existing item (move), or editing its duration and saving (resize). -/
inductive Op where
  | insert (preset : PresetDef) (newId : String) (pointerY top : ℚ) (demoMode : Bool)
  | move (id : String) (pointerY top : ℚ)
  | resize (id : String) (newDur : Int)

/-- The state transition of each operation, from `handleDragEnd` and the editor
modal of `src/unnamed/part_000`:
insert appends the new item at the (snapped) drop offset unless the demo-mode
capacity gate (`demoMode && prev.length >= 100`) refuses it; move clamps the
dragged item's start into `[0, max(0, totalMinutes - durationMin)]`; resize
clamps the edited duration into `[5, 12*60]` and saves via `upsertItem`. -/
def applyOp (cfg : Config) (st : List Item) : Op → List Item
  | .insert p newId pointerY top demoMode =>
    if demoMode && decide (100 ≤ st.length) then st
    else st ++ [mkDropItem p newId (dropOffset cfg pointerY top)]
  | .move mid pointerY top =>
    st.map fun i =>
      if i.id = mid then
        { i with startMin :=
            clamp (dropOffset cfg pointerY top) 0 (max 0 (cfg.totalMinutes - i.durationMin)) }
      else i
  | .resize rid newDur =>
    st.map fun i =>
      if i.id = rid then { i with durationMin := clamp newDur 5 (12 * 60) } else i

/-- Running a sequence of operations from the initial empty store. -/
def runOps (cfg : Config) (ops : List Op) : List Item := ops.foldl (applyOp cfg) []

/-- The three range invariants of §4.3 of the spec (the full claimed form). -/
def itemWithinDay (total : Int) (it : Item) : Prop :=
  0 ≤ it.startMin ∧ it.startMin + it.durationMin ≤ total ∧
    5 ≤ it.durationMin ∧ it.durationMin ≤ 720

/-- The part of the §4.3 invariants that the code actually maintains. -/
def itemBase (it : Item) : Prop :=
  0 ≤ it.startMin ∧ 5 ≤ it.durationMin ∧ it.durationMin ≤ 720

/-- The side condition that inserts drop presets taken from the catalog. -/
def opFromCatalog : Op → Prop
  | .insert p _ _ _ _ => p ∈ PRESETS
  | .move _ _ _ => True
  | .resize _ _ => True

instance : DecidablePred opFromCatalog := fun op =>
  match op with
  | .insert p _ _ _ _ => inferInstanceAs (Decidable (p ∈ PRESETS))
  | .move _ _ _ => .isTrue trivial
  | .resize _ _ => .isTrue trivial

/-- The Ceremony preset (an entry of `PRESETS`). -/
def ceremonyPreset : PresetDef :=
  { key := "ceremony", label := "Ceremony", standardMin := 30, color := "#01363b" }

/-- The concrete operation sequence used by the C1 witness. -/
def opsW : List Op :=
  [Op.insert ceremonyPreset "e1" 700 0 true, Op.move "e1" 100 0, Op.resize "e1" 45]

/-- An item used in concrete stores: `[0, 30)` with id `"a"`. -/
def itemA : Item :=
  { id := "a", title := "A", startMin := 0, durationMin := 30, color := "#27402c", notes := "" }

/-- A store already holding 100 items. -/
def fullStore : List Item := (List.range 100).map fun n =>
  { id := toString n, title := "Block", startMin := 0, durationMin := 30,
    color := "#27402c", notes := "" }

/-- The error taxonomy named by the spec (§7).  The code itself has no such
channel; these constructors exist to state the spec-side models below. -/
inductive ScheduleError where
  | notFound
  | capacityExceeded
deriving DecidableEq, Repr

instance {ε α : Type _} [DecidableEq ε] [DecidableEq α] : DecidableEq (Except ε α) := fun a b =>
  match a, b with
  | .error e, .error f =>
    if h : e = f then .isTrue (congrArg Except.error h)
    else .isFalse fun hc => h (Except.error.inj hc)
  | .ok x, .ok y =>
    if h : x = y then .isTrue (congrArg Except.ok h)
    else .isFalse fun hc => h (Except.ok.inj hc)
  | .error _, .ok _ => .isFalse fun hc => Except.noConfusion hc
  | .ok _, .error _ => .isFalse fun hc => Except.noConfusion hc

/-- Spec-side model, written from the spec's words (§4.3 `move`): fail with
`NotFound` when the id is absent, otherwise clamp and update.  Used only to
compare the claimed error behaviour against the code. -/
def specMove (total : Int) (st : List Item) (mid : String) (off : Int) :
    Except ScheduleError (List Item) :=
  if st.any fun i => decide (i.id = mid) then
    .ok (st.map fun i =>
      if i.id = mid then
        { i with startMin := clamp off 0 (max 0 (total - i.durationMin)) }
      else i)
  else .error .notFound

/-- Spec-side model, written from the spec's words (§4.3 `resize`): fail with
`NotFound` when the id is absent, otherwise clamp the duration into `[5,720]`
and then down so the end does not pass the end of the day. -/
def specResize (total : Int) (st : List Item) (rid : String) (d : Int) :
    Except ScheduleError (List Item) :=
  if st.any fun i => decide (i.id = rid) then
    .ok (st.map fun i =>
      if i.id = rid then { i with durationMin := min (clamp d 5 720) (total - i.startMin) }
      else i)
  else .error .notFound

/-- Spec-side model, written from the spec's words (§4.3/§7 capacity policy):
inserting at capacity reports `CapacityExceeded`. -/
def specInsert (maxCount : Nat) (st : List Item) (it : Item) :
    Except ScheduleError (List Item) :=
  if maxCount ≤ st.length then .error .capacityExceeded else .ok (st ++ [it])

/-- The element-wise recoloring of `applyPalette`, with the running index.
The `getD` default is never used when `colors` is nonempty. -/
def applyPaletteGo (colors : List String) : Nat → List Item → List Item
  | _, [] => []
  | idx, it :: rest =>
    { it with color := colors.getD (idx % colors.length) it.color } ::
      applyPaletteGo colors (idx + 1) rest

/-- The palette action `applyPalette(colors)`: `if (!colors?.length) return;`
then recolor every item to `colors[idx % colors.length]`. -/
def applyPalette (colors : List String) (items : List Item) : List Item :=
  if colors.length = 0 then items else applyPaletteGo colors 0 items

/-- The palette used by the C9 witness (`Coastal Blues + Sand`). -/
def paletteW : List String := ["#2D5D7B", "#9DB6C6", "#D5C5A1"]

/-- The start components emitted by `exportICS`:
`start = setHours(setMinutes(parseISO(date + "T00:00:00"), sm + i.startMin), sh)`.
`setMinutes` normalizes the minute overflow of `sm + startMin` (carrying into
hours and days), and the subsequent `setHours` then overwrites the hour
component with `sh`.  The result is `(dayCarry, hour, minute)` relative to
midnight of the configured date. -/
def icsStart (sh sm startMin : Int) : Int × Int × Int :=
  ((sm + startMin).ediv 1440, sh, (sm + startMin).emod 1440 % 60)

/-- The end components emitted by `exportICS`:
`end = addMinutes(start, i.durationMin)`, exact minute arithmetic on the
(already computed) start. -/
def icsEnd (sh sm startMin durationMin : Int) : Int × Int × Int :=
  let startTotal := (sm + startMin).ediv 1440 * 1440 + sh * 60 + (sm + startMin).emod 1440 % 60
  let t := startTotal + durationMin
  (t.ediv 1440, t.ediv 60 % 24, t.emod 60)

/-- The absolute start the claim requires: `dayStart + startOffsetMinutes` with
minute overflow carried into hours and days. -/
def claimedStart (sh sm startMin : Int) : Int × Int × Int :=
  let t := sh * 60 + sm + startMin
  (t.ediv 1440, t.ediv 60 % 24, t.emod 60)

/-- One emitted calendar event. -/
structure IcsEvent where
  title : String
  evStart : Int × Int × Int
  evEnd : Int × Int × Int
  description : String
deriving DecidableEq, Repr

/-- The description fallback used by `exportICS`. -/
def defaultDescription : String := "Created with DayFlow by Dostal Digital"

/-- The event `exportICS` builds for one item. -/
def icsEventOf (sh sm : Int) (it : Item) : IcsEvent :=
  { title := it.title
    evStart := icsStart sh sm it.startMin
    evEnd := icsEnd sh sm it.startMin it.durationMin
    description := if it.notes = "" then defaultDescription else it.notes }

/-- The calendar export `exportICS`: one event per item. -/
def exportICS (sh sm : Int) (items : List Item) : List IcsEvent :=
  items.map (icsEventOf sh sm)

/-- The Ceremony item of the spec's worked example: offset 180 minutes from an
`11:00` day start. -/
def ceremonyItem : Item :=
  { id := "c1", title := "Ceremony", startMin := 180, durationMin := 30,
    color := "#01363b", notes := "" }

/-- Two-digit zero padding of the minutes field. -/
def pad2 (n : Nat) : String := if n < 10 then "0" ++ toString n else toString n

/-- The label `timeLabelFromOffset(day, start, offsetMin)`: the absolute clock
label of `dayStart + offsetMin`, rendered with the `date-fns` pattern
`"h:mm a"` (hours 1–12 without leading zero, two-digit minutes, `AM`/`PM`). -/
def timeLabelFromOffset (sh sm offsetMin : Int) : String :=
  let minOfDay := ((sh * 60 + sm + offsetMin).emod 1440).toNat
  let h24 := minOfDay / 60
  let mm := minOfDay % 60
  (toString (if h24 % 12 = 0 then 12 else h24 % 12)) ++ ":" ++ pad2 mm ++ " " ++
    (if h24 < 12 then "AM" else "PM")

/-- The item line of `exportText` without the notes continuation:
`"<absolute time> — <title> (<duration> min)"`. -/
def baseLine (sh sm : Int) (it : Item) : String :=
  timeLabelFromOffset sh sm it.startMin ++ " — " ++ it.title ++ " (" ++
    toString it.durationMin ++ " min)"

/-- The full rendering of one item in `exportText`: the base line, plus the
indented `Notes:` continuation exactly when `notes` is non-empty. -/
def renderLine (sh sm : Int) (it : Item) : String :=
  baseLine sh sm it ++ (if it.notes = "" then "" else "\n    Notes: " ++ it.notes)

/-- The comparator of `exportText`'s sort: `(a, b) => a.startMin - b.startMin`
(ties compare equal, and the JavaScript sort is stable). -/
def startRel (a b : Item) : Prop := a.startMin ≤ b.startMin

instance : DecidableRel startRel := fun a b =>
  inferInstanceAs (Decidable (a.startMin ≤ b.startMin))

instance : IsTotal Item startRel := ⟨fun a b => le_total a.startMin b.startMin⟩

instance : IsTrans Item startRel := ⟨fun _ _ _ hab hbc => le_trans hab hbc⟩

/-- The sort `items.slice().sort((a, b) => a.startMin - b.startMin)`: a stable
sort by ascending start. -/
def sortByStart (items : List Item) : List Item := List.insertionSort startRel items

/-- The item lines of `exportText`, in emitted order. -/
def exportTextLines (sh sm : Int) (items : List Item) : List String :=
  (sortByStart items).map (renderLine sh sm)

/-- The body of the text export (`lines.join("\n")`). -/
def exportTextBody (sh sm : Int) (items : List Item) : String :=
  String.intercalate "\n" (exportTextLines sh sm items)

/-- The end of an item's half-open `[start, start + duration)` interval. -/
def itemEnd (it : Item) : Int := it.startMin + it.durationMin

/-- The comparator of `laneLayout`'s sort:
`(a, b) => a.startMin - b.startMin || b.durationMin - a.durationMin`
(start ascending, ties broken longer duration first; ties of both fields
compare equal and the JavaScript sort is stable). -/
def laneRel (a b : Item) : Prop :=
  a.startMin < b.startMin ∨ (a.startMin = b.startMin ∧ b.durationMin ≤ a.durationMin)

instance : DecidableRel laneRel := fun a b =>
  inferInstanceAs (Decidable
    (a.startMin < b.startMin ∨ (a.startMin = b.startMin ∧ b.durationMin ≤ a.durationMin)))

instance : IsTotal Item laneRel := ⟨by
  intro a b
  rcases lt_trichotomy a.startMin b.startMin with h | h | h
  · exact Or.inl (Or.inl h)
  · rcases le_total b.durationMin a.durationMin with hd | hd
    · exact Or.inl (Or.inr ⟨h, hd⟩)
    · exact Or.inr (Or.inr ⟨h.symm, hd⟩)
  · exact Or.inr (Or.inl h)⟩

instance : IsTrans Item laneRel := ⟨by
  intro a b c hab hbc
  rcases hab with h1 | ⟨h1a, h1b⟩ <;> rcases hbc with h2 | ⟨h2a, h2b⟩
  · exact Or.inl (by omega)
  · exact Or.inl (by omega)
  · exact Or.inl (by omega)
  · exact Or.inr ⟨by omega, by omega⟩⟩

/-- JavaScript's `Array.prototype.findIndex`, as an `Option`-returning index
search (the source writes `laneEnds.findIndex((end) => end <= it.startMin)`,
with `-1` for no hit). -/
def firstIdx {α : Type _} (p : α → Bool) : List α → Option Nat
  | [] => none
  | a :: l => if p a then some 0 else (firstIdx p l).map (· + 1)

/-- The greedy sweep of `laneLayout`: for each item in order, place it in the
first lane whose recorded end is `≤` its start (updating that lane's end to
the item's end), or open a new lane. -/
def greedy : List Item → List Int → List (Item × Nat) × List Int
  | [], ends => ([], ends)
  | it :: rest, ends =>
    match firstIdx (fun e => decide (e ≤ it.startMin)) ends with
    | some k =>
      ((it, k) :: (greedy rest (ends.set k (itemEnd it))).1,
        (greedy rest (ends.set k (itemEnd it))).2)
    | none =>
      ((it, ends.length) :: (greedy rest (ends ++ [itemEnd it])).1,
        (greedy rest (ends ++ [itemEnd it])).2)

/-- The derived lane layout: `lanesCount = Math.max(1, laneEnds.length)` and
the placement list (`byId` is built from it, last write winning). -/
structure LaneLayout where
  lanesCount : Nat
  placed : List (Item × Nat)

/-- The sort of `laneLayout`:
`[...items].sort((a, b) => a.startMin - b.startMin || b.durationMin - a.durationMin)`. -/
def sortForLanes (items : List Item) : List Item := List.insertionSort laneRel items

/-- The lane layout computed by `laneLayout` in the source. -/
def laneLayout (items : List Item) : LaneLayout :=
  { lanesCount := max 1 (greedy (sortForLanes items) []).2.length
    placed := (greedy (sortForLanes items) []).1 }

/-- The number of lanes actually opened by the sweep (`laneEnds.length`;
`lanesCount` clamps this to at least 1 for rendering). -/
def lanesUsed (items : List Item) : Nat := (greedy (sortForLanes items) []).2.length

/-- The id-to-lane map
`Object.fromEntries(placed.map(p => [p.id, p.lane]))[id]`: the last entry for
an id wins. -/
def byId (items : List Item) (id : String) : Option Nat :=
  ((laneLayout items).placed.reverse.find? fun q => decide (q.1.id = id)).map fun q => q.2

/-- The item is active at instant `t`: `t ∈ [start, start + duration)`. -/
def activeAt (t : Int) (it : Item) : Bool :=
  decide (it.startMin ≤ t) && decide (t < itemEnd it)

/-- The number of items of the list simultaneously active at instant `t`. -/
def depth (items : List Item) (t : Int) : Nat := items.countP (activeAt t)

/-- Two items overlap when some instant lies in both `[start, start+duration)`
ranges (touching endpoints are not an overlap). -/
def overlaps (a b : Item) : Prop := ∃ t : Int, activeAt t a = true ∧ activeAt t b = true

/-- Item `[30, 60)`, touching `itemA = [0, 30)` at the endpoint. -/
def itemB : Item :=
  { id := "b", title := "B", startMin := 30, durationMin := 30, color := "#27402c", notes := "" }

/-- Item `[10, 40)`. -/
def itemK : Item :=
  { id := "k", title := "K", startMin := 10, durationMin := 30, color := "#27402c", notes := "" }

/-- Item `[20, 50)`. -/
def itemL : Item :=
  { id := "l", title := "L", startMin := 20, durationMin := 30, color := "#27402c", notes := "" }

/-- Two items touching at an endpoint: `[0,30)` and `[30,60)`. -/
def exTouch : List Item := [itemA, itemB]

/-- Three mutually overlapping items: `[0,30)`, `[10,40)`, `[20,50)`. -/
def exTriple : List Item := [itemA, itemK, itemL]

/-!
Theorems.  Each claim of the specification review is settled by exactly one
theorem below; the remaining theorems are shared supporting lemmas.
-/

/-- The executable `Rat.floor` agrees with the mathematical floor. -/
theorem ratFloor_eq_intFloor (q : ℚ) : q.floor = ⌊q⌋ :=
  (Rat.floor_def' q).trans Rat.floor_def.symm

theorem mathRound_eq_floor (q : ℚ) : mathRound q = ⌊q + 1/2⌋ :=
  ratFloor_eq_intFloor _

theorem totalMinutesOf_nonneg (sh sm eh em : Int) : 0 ≤ totalMinutesOf sh sm eh em := by
  unfold totalMinutesOf clamp
  have : (0 : ℤ) ≤ 60 := by norm_num
  exact this.trans (le_max_left _ _)

/-- The clamped pre-snap offset is never negative (the lower clamp at pixel 0). -/
theorem rawOffset_nonneg (cfg : Config) (hp : 0 < cfg.pxPerMin) (pointerY top : ℚ) :
    0 ≤ rawOffset cfg pointerY top := by
  rw [rawOffset, mathRound_eq_floor]
  have h1 : (0 : ℚ) ≤ max 0 (min ((cfg.totalMinutes : ℚ) * cfg.pxPerMin) (pointerY - top)) :=
    le_max_left _ _
  have h2 : (0 : ℚ) ≤
      max 0 (min ((cfg.totalMinutes : ℚ) * cfg.pxPerMin) (pointerY - top)) / cfg.pxPerMin :=
    div_nonneg h1 hp.le
  have : (0 : ℤ) ≤
      ⌊max 0 (min ((cfg.totalMinutes : ℚ) * cfg.pxPerMin) (pointerY - top)) / cfg.pxPerMin
        + 1/2⌋ := by
    apply Int.le_floor.mpr
    push_cast
    linarith
  exact this

/-- The clamped pre-snap offset never exceeds the schedule length (the upper
clamp at `gridHeight`). -/
theorem rawOffset_le (cfg : Config) (hp : 0 < cfg.pxPerMin) (ht : 0 ≤ cfg.totalMinutes)
    (pointerY top : ℚ) : rawOffset cfg pointerY top ≤ cfg.totalMinutes := by
  rw [rawOffset, mathRound_eq_floor]
  set relY := max 0 (min ((cfg.totalMinutes : ℚ) * cfg.pxPerMin) (pointerY - top)) with hrel
  have hT : (0 : ℚ) ≤ (cfg.totalMinutes : ℚ) := by exact_mod_cast ht
  have hgh : (0 : ℚ) ≤ (cfg.totalMinutes : ℚ) * cfg.pxPerMin := mul_nonneg hT hp.le
  have h2 : relY ≤ (cfg.totalMinutes : ℚ) * cfg.pxPerMin :=
    max_le hgh (min_le_left _ _)
  have hq : relY / cfg.pxPerMin ≤ (cfg.totalMinutes : ℚ) := by
    rw [div_le_iff₀ hp]
    exact h2
  have : ⌊relY / cfg.pxPerMin + 1/2⌋ < cfg.totalMinutes + 1 := by
    rw [Int.floor_lt]
    push_cast
    linarith
  omega

/-- Claim C5: for every valid config (positive pixel scale, nonnegative
schedule length — the code keeps `pxPerMin ∈ [1,6]` and
`totalMinutes ∈ [60,1080]`) and every input pixel coordinate, including
negative or arbitrarily large values, the pixel-to-offset conversion before
snapping returns an integer minute offset within `[0, totalScheduleMinutes]`. -/
theorem toOffsetMinutes_in_range (cfg : Config) (hp : 0 < cfg.pxPerMin)
    (ht : 0 ≤ cfg.totalMinutes) (pointerY top : ℚ) :
    0 ≤ rawOffset cfg pointerY top ∧ rawOffset cfg pointerY top ≤ cfg.totalMinutes :=
  ⟨rawOffset_nonneg cfg hp pointerY top, rawOffset_le cfg hp ht pointerY top⟩

/-- Witness for C5 at a concrete out-of-range pixel input. -/
theorem toOffsetMinutes_in_range_witness :
    (0 : ℚ) < cfg540.pxPerMin ∧ (0 : ℤ) ≤ cfg540.totalMinutes ∧
      (0 ≤ rawOffset cfg540 (-500) 0 ∧ rawOffset cfg540 (-500) 0 ≤ cfg540.totalMinutes) :=
  ⟨by norm_num [cfg540], by decide,
    toOffsetMinutes_in_range cfg540 (by norm_num [cfg540]) (by decide) (-500) 0⟩

/-- Rounding an exact multiple of the slot gives it back. -/
theorem snapTo_multiple (k slot : ℤ) (h : slot ≠ 0) : snapTo (k * slot) slot = k * slot := by
  have hs : ((slot : ℤ) : ℚ) ≠ 0 := Int.cast_ne_zero.mpr h
  have hdiv : (((k * slot : ℤ) : ℚ)) / (slot : ℚ) = (k : ℚ) := by
    push_cast
    field_simp
  rw [snapTo, hdiv, mathRound_eq_floor]
  have : ((k : ℚ) + 1/2) = (1/2 + (k : ℤ)) := by ring
  rw [this, Int.floor_add_int]
  norm_num

/-- Claim C6: snapping is idempotent for every integer offset and every slot
size in the configurable set `{5,10,15,30,45,60}`:
`snap(snap(x, slot), slot) = snap(x, slot)` where
`snap(x, slot) = Math.round(x / slot) * slot`. -/
theorem snap_idempotent (x slot : ℤ) (h : slot ∈ ([5, 10, 15, 30, 45, 60] : List ℤ)) :
    snapTo (snapTo x slot) slot = snapTo x slot := by
  have hs : slot ≠ 0 := by
    intro h0
    subst h0
    simp at h
  rw [snapTo]
  exact snapTo_multiple _ slot hs

/-- Witness for C6 at `x = 7`, `slot = 15`. -/
theorem snap_idempotent_witness :
    (15 : ℤ) ∈ ([5, 10, 15, 30, 45, 60] : List ℤ) ∧
      snapTo (snapTo 7 15) 15 = snapTo 7 15 :=
  ⟨by decide, snap_idempotent 7 15 (by decide)⟩

theorem rawOffset_cfg540 : rawOffset cfg540 1080 0 = 540 := by
  have h1 : cfg540.totalMinutes = 540 := by decide
  have h2 : cfg540.pxPerMin = 2 := rfl
  rw [rawOffset, h1, h2, mathRound_eq_floor]
  have hmin : min (((540 : ℤ) : ℚ) * 2) ((1080 : ℚ) - 0) = 1080 := by norm_num
  rw [hmin, max_eq_right (by norm_num : (0 : ℚ) ≤ 1080)]
  norm_num

theorem dropOffset_cfg540 : dropOffset cfg540 1080 0 = 540 := by
  rw [dropOffset, if_pos (show cfg540.snap = true from rfl), rawOffset_cfg540,
    show cfg540.slotSize = 15 from rfl, show (540 : ℤ) = 36 * 15 by norm_num,
    snapTo_multiple 36 15 (by norm_num)]

/-- Claim C1 counterexample: dropping the Ceremony preset (30 min) at the
bottom edge of the grid (pointer at `gridHeight`, so offset 540 on a 540-minute
day) inserts an item with `startMin = 540`, `durationMin = 30`, violating
`startMin + durationMin ≤ totalScheduleMinutes`; the insert path performs no
end-of-day clamping. -/
theorem store_invariant_counterexample :
    ¬ (∀ it ∈ runOps cfg540 [Op.insert ceremonyPreset "e1" 1080 0 true],
        itemWithinDay cfg540.totalMinutes it) := by
  intro h
  have happly : applyOp cfg540 [] (Op.insert ceremonyPreset "e1" 1080 0 true)
      = [mkDropItem ceremonyPreset "e1" 540] := by
    have hstep : applyOp cfg540 [] (Op.insert ceremonyPreset "e1" 1080 0 true)
        = if (true && decide (100 ≤ ([] : List Item).length)) then ([] : List Item)
          else [] ++ [mkDropItem ceremonyPreset "e1" (dropOffset cfg540 1080 0)] := rfl
    rw [hstep, dropOffset_cfg540]
    decide
  have hrun : runOps cfg540 [Op.insert ceremonyPreset "e1" 1080 0 true]
      = [mkDropItem ceremonyPreset "e1" 540] := by
    rw [runOps, List.foldl_cons, List.foldl_nil, happly]
  rw [hrun] at h
  have hmem := h (mkDropItem ceremonyPreset "e1" 540) (List.mem_cons_self _ _)
  rcases hmem with ⟨-, hbad, -, -⟩
  have h1 : cfg540.totalMinutes = 540 := by decide
  rw [h1] at hbad
  have hstart : (mkDropItem ceremonyPreset "e1" 540).startMin = 540 := rfl
  have hd : (mkDropItem ceremonyPreset "e1" 540).durationMin = 30 := rfl
  omega

theorem snapTo_nonneg (x slot : ℤ) (hx : 0 ≤ x) (hs : 0 < slot) : 0 ≤ snapTo x slot := by
  rw [snapTo, mathRound_eq_floor]
  have hq : (0 : ℚ) ≤ (x : ℚ) / (slot : ℚ) :=
    div_nonneg (by exact_mod_cast hx) (by exact_mod_cast hs.le)
  have h1 : (0 : ℤ) ≤ ⌊(x : ℚ) / (slot : ℚ) + 1/2⌋ := by
    apply Int.le_floor.mpr
    push_cast
    linarith
  exact mul_nonneg h1 (by exact_mod_cast hs.le)

theorem dropOffset_nonneg (cfg : Config) (hp : 0 < cfg.pxPerMin) (hs : 0 < cfg.slotSize)
    (pointerY top : ℚ) : 0 ≤ dropOffset cfg pointerY top := by
  rw [dropOffset]
  split
  · exact snapTo_nonneg _ _ (rawOffset_nonneg cfg hp pointerY top) hs
  · exact rawOffset_nonneg cfg hp pointerY top

/-- Every catalog preset has a standard duration within `[5, 720]`. -/
theorem presets_duration_ok : ∀ p ∈ PRESETS, 5 ≤ p.standardMin ∧ p.standardMin ≤ 720 := by
  decide

theorem applyOp_preserves (cfg : Config) (hp : 0 < cfg.pxPerMin) (hs : 0 < cfg.slotSize)
    (st : List Item) (op : Op) (hst : ∀ it ∈ st, itemBase it) (hop : opFromCatalog op) :
    ∀ it ∈ applyOp cfg st op, itemBase it := by
  cases op with
  | insert p newId y tp demo =>
    intro it hit
    simp only [applyOp] at hit
    split at hit
    · exact hst it hit
    · rcases List.mem_append.mp hit with h | h
      · exact hst it h
      · have heq : it = mkDropItem p newId (dropOffset cfg y tp) := by simpa using h
        subst heq
        have hdur := presets_duration_ok p hop
        exact ⟨dropOffset_nonneg cfg hp hs y tp, hdur.1, hdur.2⟩
  | move mid y tp =>
    intro it hit
    obtain ⟨i, hi, rfl⟩ := List.mem_map.mp hit
    by_cases hid : i.id = mid
    · rw [if_pos hid]
      exact ⟨le_max_left _ _, (hst i hi).2.1, (hst i hi).2.2⟩
    · rw [if_neg hid]
      exact hst i hi
  | resize rid d =>
    intro it hit
    obtain ⟨i, hi, rfl⟩ := List.mem_map.mp hit
    by_cases hid : i.id = rid
    · rw [if_pos hid]
      refine ⟨(hst i hi).1, le_max_left _ _, ?_⟩
      show clamp d 5 (12 * 60) ≤ 720
      rw [clamp]
      exact max_le (by norm_num) ((min_le_left _ _).trans (by norm_num))
    · rw [if_neg hid]
      exact hst i hi

/-- Claim C1, amended: for every sequence of insert/move/resize operations
(inserts dropping catalog presets; positive pixel scale and slot size), every
item in the store satisfies `0 ≤ startMin` and `5 ≤ durationMin ≤ 720` after
every operation (every prefix of a sequence is itself a sequence).  The third
claimed bound `startMin + durationMin ≤ totalScheduleMinutes` fails on the
code — the counterexample above shows the insert path performs no end-of-day
clamping, and the resize path does not re-clamp either; only the move path
clamps against the end of the day. -/
theorem store_base_invariant (cfg : Config) (hp : 0 < cfg.pxPerMin) (hs : 0 < cfg.slotSize)
    (ops : List Op) (hops : ∀ op ∈ ops, opFromCatalog op) :
    ∀ it ∈ runOps cfg ops, itemBase it := by
  have main : ∀ (ops : List Op) (st : List Item), (∀ it ∈ st, itemBase it) →
      (∀ op ∈ ops, opFromCatalog op) → ∀ it ∈ ops.foldl (applyOp cfg) st, itemBase it := by
    intro ops
    induction ops with
    | nil =>
      intro st hst _
      simpa using hst
    | cons op rest ih =>
      intro st hst hops
      rw [List.foldl_cons]
      exact ih _ (applyOp_preserves cfg hp hs st op hst (hops op (List.mem_cons_self _ _)))
        (fun o ho => hops o (List.mem_cons_of_mem _ ho))
  exact main ops [] (by simp) hops

/-- Witness for the amended C1 on a concrete insert/move/resize sequence. -/
theorem store_base_invariant_witness :
    (0 : ℚ) < cfg540.pxPerMin ∧ (0 : ℤ) < cfg540.slotSize ∧
      (∀ op ∈ opsW, opFromCatalog op) ∧ ∀ it ∈ runOps cfg540 opsW, itemBase it :=
  ⟨by norm_num [cfg540], by decide, by decide,
    store_base_invariant cfg540 (by norm_num [cfg540]) (by decide) opsW (by decide)⟩

theorem map_update_id (st : List Item) (mid : String) (f : Item → Item)
    (h : ∀ i ∈ st, i.id ≠ mid) :
    (st.map fun i => if i.id = mid then f i else i) = st := by
  induction st with
  | nil => rfl
  | cons a l ih =>
    simp only [List.map_cons]
    rw [if_neg (h a (List.mem_cons_self a l)),
      ih fun i hi => h i (List.mem_cons_of_mem a hi)]

/-- Claim C7, amended: moving, resizing or field-updating an id that is not in
the store leaves the item list byte-for-byte unchanged, but silently — the code
has no error channel, so no `NotFound` is surfaced; the operation is a no-op. -/
theorem missing_id_silent_noop (cfg : Config) (st : List Item) (mid : String)
    (h : ∀ i ∈ st, i.id ≠ mid) (y tp : ℚ) (d : Int) (u : Item) (hu : u.id = mid) :
    applyOp cfg st (.move mid y tp) = st
    ∧ applyOp cfg st (.resize mid d) = st
    ∧ upsertItem st u = st := by
  refine ⟨map_update_id st mid _ h, map_update_id st mid _ h, ?_⟩
  rw [upsertItem]
  exact map_update_id st u.id _ fun i hi => by rw [hu]; exact h i hi

/-- Claim C7 counterexample: resizing the absent id `"b"` in the store
`[itemA]` returns the plain unchanged list — a normal result, not the
`NotFound` error the claim requires (rendered by the spec-side `specResize`/
`specMove`, which do report `NotFound` here). -/
theorem missing_id_counterexample :
    applyOp cfg540 [itemA] (.resize "b" 50) = [itemA]
    ∧ specResize cfg540.totalMinutes [itemA] "b" 50 = Except.error ScheduleError.notFound
    ∧ specMove cfg540.totalMinutes [itemA] "b" 50 = Except.error ScheduleError.notFound
    ∧ (Except.ok [itemA] : Except ScheduleError (List Item)) ≠
        Except.error ScheduleError.notFound :=
  ⟨by decide, by decide, by decide, by decide⟩

/-- Witness for the amended C7 on a concrete store and absent id. -/
theorem missing_id_silent_noop_witness :
    (∀ i ∈ [itemA], i.id ≠ "b") ∧
      (applyOp cfg540 [itemA] (.move "b" 0 0) = [itemA]
        ∧ applyOp cfg540 [itemA] (.resize "b" 50) = [itemA]
        ∧ upsertItem [itemA] { itemA with id := "b" } = [itemA]) :=
  ⟨by decide, missing_id_silent_noop cfg540 [itemA] "b" (by decide) 0 0 50
    { itemA with id := "b" } rfl⟩

/-- Claim C8, amended: with the demo-mode gate active and the store at the
hard-coded limit (100 items in `src/unnamed/part_000`; the other variant uses
6), dropping a preset leaves the item list unchanged.  The refusal is silent:
no `CapacityExceeded` (or any other signal) is produced. -/
theorem capacity_noop (cfg : Config) (st : List Item) (p : PresetDef) (newId : String)
    (y tp : ℚ) (h : 100 ≤ st.length) :
    applyOp cfg st (.insert p newId y tp true) = st := by
  simp only [applyOp]
  rw [if_pos]
  simp [h]

/-- Claim C8 counterexample: inserting into a full store returns the plain
unchanged list — a normal result, not the `CapacityExceeded` report the claim
requires (rendered by the spec-side `specInsert`, which does report it here). -/
theorem capacity_counterexample :
    applyOp cfg540 fullStore (.insert ceremonyPreset "x" 0 0 true) = fullStore
    ∧ specInsert 100 fullStore (mkDropItem ceremonyPreset "x" 0) =
        Except.error ScheduleError.capacityExceeded
    ∧ (Except.ok fullStore : Except ScheduleError (List Item)) ≠
        Except.error ScheduleError.capacityExceeded :=
  ⟨by decide, by decide, by decide⟩

/-- Witness for the amended C8 at the full store. -/
theorem capacity_noop_witness :
    100 ≤ fullStore.length ∧
      applyOp cfg540 fullStore (.insert ceremonyPreset "y" 0 0 true) = fullStore :=
  ⟨by decide, capacity_noop cfg540 fullStore ceremonyPreset "y" 0 0 (by decide)⟩

theorem applyPaletteGo_length (colors : List String) :
    ∀ (n : Nat) (l : List Item), (applyPaletteGo colors n l).length = l.length := by
  intro n l
  induction l generalizing n with
  | nil => rfl
  | cons a l ih => simp [applyPaletteGo, ih]

theorem applyPaletteGo_get (colors : List String) :
    ∀ (l : List Item) (n i : Nat) (hi : i < l.length),
      (applyPaletteGo colors n l)[i]? =
        some { l.get ⟨i, hi⟩ with
               color := colors.getD ((n + i) % colors.length) ((l.get ⟨i, hi⟩).color) } := by
  intro l
  induction l with
  | nil =>
    intro n i hi
    simp at hi
  | cons a l ih =>
    intro n i hi
    cases i with
    | zero => simp [applyPaletteGo]
    | succ j =>
      have hj : j < l.length := by simpa using hi
      have hstep := ih (n + 1) j hj
      simp only [applyPaletteGo, List.getElem?_cons_succ, hstep, List.get_cons_succ]
      have harith : n + 1 + j = n + (j + 1) := by omega
      rw [harith]

/-- Claim C9: applying a nonempty palette recolors the item at position `i` to
`colors[i % colors.length]` and leaves all other fields, the length and the
order unchanged; an empty (or absent) palette leaves the list untouched. -/
theorem applyPalette_spec (colors : List String) (items : List Item) :
    (colors = [] → applyPalette colors items = items)
    ∧ (colors ≠ [] →
        (applyPalette colors items).length = items.length
        ∧ ∀ (i : Nat) (hi : i < items.length),
            (applyPalette colors items)[i]? =
              some { items.get ⟨i, hi⟩ with
                     color := colors.getD (i % colors.length)
                       ((items.get ⟨i, hi⟩).color) }) := by
  constructor
  · intro h
    subst h
    rfl
  · intro h
    have hne : ¬ colors.length = 0 := by simpa using h
    constructor
    · rw [applyPalette, if_neg hne]
      exact applyPaletteGo_length colors 0 items
    · intro i hi
      rw [applyPalette, if_neg hne]
      have hget := applyPaletteGo_get colors items 0 i hi
      simpa using hget

/-- Witness for C9 on a concrete nonempty palette and store. -/
theorem applyPalette_spec_witness :
    paletteW ≠ [] ∧
      (applyPalette paletteW [itemA]).length = [itemA].length ∧
      (applyPalette paletteW [itemA])[0]? =
        some { [itemA].get ⟨0, by decide⟩ with
               color := paletteW.getD (0 % paletteW.length)
                 (([itemA].get ⟨0, by decide⟩).color) } :=
  ⟨by decide, ((applyPalette_spec paletteW [itemA]).2 (by decide)).1,
    ((applyPalette_spec paletteW [itemA]).2 (by decide)).2 0 (by decide)⟩

/-- Claim C3 fails on the code: with `dayStart = 11:00` and
`startOffsetMinutes = 180`, the claim requires the event to start at 14:00, but
`exportICS` emits 11:00 — `setMinutes` is applied before `setHours`, so the
hour carry of the offset is destroyed when the hour is forced back to the day
start's hour.  (The text exporter computes the same quantity in the correct
order, so the code contradicts its own sibling logic: a code bug.) -/
theorem exportICS_start_bug :
    exportICS 11 0 [ceremonyItem] =
      [{ title := "Ceremony", evStart := (0, 11, 0), evEnd := (0, 11, 30),
         description := defaultDescription }]
    ∧ claimedStart 11 0 ceremonyItem.startMin = (0, 14, 0)
    ∧ icsStart 11 0 ceremonyItem.startMin ≠ claimedStart 11 0 ceremonyItem.startMin :=
  ⟨by decide, by decide, by decide⟩

/-- Claim C4: the text export lists the items one line per item in
start-ascending order (a permutation of the store, sorted by `startMin`), in
the format `"<absolute time> — <title> (<duration> min)"` with an indented
`Notes:` continuation exactly when `notes` is non-empty; and on the worked
example (`Ceremony`, offset 180, duration 30, day start `11:00`) the emitted
item line is exactly `"2:00 PM — Ceremony (30 min)"`. -/
theorem exportText_spec (sh sm : Int) (items : List Item) :
    (sortByStart items).Perm items
    ∧ (sortByStart items).Sorted startRel
    ∧ exportTextBody sh sm items =
        String.intercalate "\n" ((sortByStart items).map (renderLine sh sm))
    ∧ (∀ it : Item, it.notes = "" → renderLine sh sm it = baseLine sh sm it)
    ∧ (∀ it : Item, it.notes ≠ "" →
        renderLine sh sm it = baseLine sh sm it ++ "\n    Notes: " ++ it.notes)
    ∧ exportTextLines 11 0 [ceremonyItem] = ["2:00 PM — Ceremony (30 min)"] := by
  refine ⟨List.perm_insertionSort startRel items, List.sorted_insertionSort startRel items,
    rfl, ?_, ?_, ?_⟩
  · intro it h
    rw [renderLine, if_pos h]
    exact String.append_empty _
  · intro it h
    rw [renderLine, if_neg h, String.append_assoc]
  · decide

/-- Witness for C4, exercising the non-empty-notes branch at a concrete item. -/
theorem exportText_spec_witness :
    ({ ceremonyItem with notes := "rings" } : Item).notes ≠ "" ∧
      renderLine 11 0 { ceremonyItem with notes := "rings" } =
        baseLine 11 0 { ceremonyItem with notes := "rings" } ++ "\n    Notes: " ++ "rings" :=
  ⟨by decide, (exportText_spec 11 0 []).2.2.2.2.1 { ceremonyItem with notes := "rings" }
    (by decide)⟩

theorem laneRel_start_le {a b : Item} (h : laneRel a b) : a.startMin ≤ b.startMin := by
  rcases h with h | ⟨h, -⟩ <;> omega

theorem firstIdx_none {α : Type _} {p : α → Bool} :
    ∀ {l : List α}, firstIdx p l = none → ∀ x ∈ l, p x = false := by
  intro l
  induction l with
  | nil =>
    intro _ x hx
    cases hx
  | cons a l ih =>
    intro h x hx
    rw [firstIdx] at h
    split at h
    · cases h
    · rename_i hpa
      have htail : firstIdx p l = none := by
        cases hfl : firstIdx p l
        · rfl
        · rw [hfl] at h
          cases h
      rcases List.mem_cons.mp hx with rfl | hx'
      · exact Bool.eq_false_iff.mpr hpa
      · exact ih htail x hx'

theorem firstIdx_some_mem {α : Type _} {p : α → Bool} :
    ∀ {l : List α} {k : Nat}, firstIdx p l = some k →
      ∃ x, l[k]? = some x ∧ p x = true := by
  intro l
  induction l with
  | nil =>
    intro k h
    cases h
  | cons a l ih =>
    intro k h
    rw [firstIdx] at h
    split at h
    · rename_i hpa
      cases h
      exact ⟨a, List.getElem?_cons_zero, hpa⟩
    · cases hfl : firstIdx p l with
      | none =>
        rw [hfl] at h
        cases h
      | some j =>
        rw [hfl] at h
        simp at h
        obtain ⟨x, hx, hpx⟩ := ih hfl
        refine ⟨x, ?_, hpx⟩
        rw [← h, List.getElem?_cons_succ]
        exact hx

theorem greedy_cons_some {it : Item} {rest : List Item} {ends : List Int} {k : Nat}
    (h : firstIdx (fun e => decide (e ≤ it.startMin)) ends = some k) :
    greedy (it :: rest) ends =
      ((it, k) :: (greedy rest (ends.set k (itemEnd it))).1,
        (greedy rest (ends.set k (itemEnd it))).2) := by
  simp only [greedy, h]

theorem greedy_cons_none {it : Item} {rest : List Item} {ends : List Int}
    (h : firstIdx (fun e => decide (e ≤ it.startMin)) ends = none) :
    greedy (it :: rest) ends =
      ((it, ends.length) :: (greedy rest (ends ++ [itemEnd it])).1,
        (greedy rest (ends ++ [itemEnd it])).2) := by
  simp only [greedy, h]

/-- The placements list the processed items, in order. -/
theorem greedy_fst_map : ∀ (l : List Item) (ends : List Int),
    (greedy l ends).1.map Prod.fst = l := by
  intro l
  induction l with
  | nil =>
    intro ends
    rfl
  | cons it rest ih =>
    intro ends
    cases hfi : firstIdx (fun e => decide (e ≤ it.startMin)) ends with
    | some k =>
      rw [greedy_cons_some hfi]
      simp [ih]
    | none =>
      rw [greedy_cons_none hfi]
      simp [ih]

/-- The number of lanes never decreases during the sweep. -/
theorem greedy_ends_len : ∀ (l : List Item) (ends : List Int),
    ends.length ≤ (greedy l ends).2.length := by
  intro l
  induction l with
  | nil =>
    intro ends
    exact le_refl _
  | cons it rest ih =>
    intro ends
    cases hfi : firstIdx (fun e => decide (e ≤ it.startMin)) ends with
    | some k =>
      rw [greedy_cons_some hfi]
      have hlen := ih (ends.set k (itemEnd it))
      rwa [List.length_set] at hlen
    | none =>
      rw [greedy_cons_none hfi]
      have hlen := ih (ends ++ [itemEnd it])
      have hgrow : ends.length ≤ (ends ++ [itemEnd it]).length := by
        simp
      exact hgrow.trans hlen

/-- Every assigned lane index is below the final lane count. -/
theorem greedy_lane_lt : ∀ (l : List Item) (ends : List Int) (q : Item × Nat),
    q ∈ (greedy l ends).1 → q.2 < (greedy l ends).2.length := by
  intro l
  induction l with
  | nil =>
    intro ends q hq
    cases hq
  | cons it rest ih =>
    intro ends q hq
    cases hfi : firstIdx (fun e => decide (e ≤ it.startMin)) ends with
    | some k =>
      rw [greedy_cons_some hfi] at hq ⊢
      obtain ⟨x, hx, -⟩ := firstIdx_some_mem hfi
      have hk : k < ends.length := (List.getElem?_eq_some.mp hx).1
      rcases List.mem_cons.mp hq with rfl | hq'
      · have h1 : k < (ends.set k (itemEnd it)).length := by
          rwa [List.length_set]
        exact h1.trans_le (greedy_ends_len rest _)
      · exact ih _ q hq'
    | none =>
      rw [greedy_cons_none hfi] at hq ⊢
      rcases List.mem_cons.mp hq with rfl | hq'
      · have h1 : ends.length < (ends ++ [itemEnd it]).length := by
          simp
        exact h1.trans_le (greedy_ends_len rest _)
      · exact ih _ q hq'

/-- The core invariant of the sweep: any two placements in the same lane occur
in order, the earlier ending no later than the later starts; and every
placement starts no earlier than the recorded end of its lane at sweep start. -/
theorem greedy_pairwise : ∀ (l : List Item), (∀ a ∈ l, 0 ≤ a.durationMin) →
    ∀ (ends : List Int),
      List.Pairwise (fun p q : Item × Nat => p.2 = q.2 → itemEnd p.1 ≤ q.1.startMin)
        (greedy l ends).1
      ∧ ∀ p ∈ (greedy l ends).1, ∀ e : Int, ends[p.2]? = some e → e ≤ p.1.startMin := by
  intro l
  induction l with
  | nil =>
    intro _ ends
    refine ⟨List.Pairwise.nil, ?_⟩
    intro p hp
    cases hp
  | cons it rest ih =>
    intro hd ends
    have hdit : 0 ≤ it.durationMin := hd it (List.mem_cons_self _ _)
    have hdrest : ∀ a ∈ rest, 0 ≤ a.durationMin := fun a ha => hd a (List.mem_cons_of_mem _ ha)
    cases hfi : firstIdx (fun e => decide (e ≤ it.startMin)) ends with
    | some k =>
      obtain ⟨ek, hek, hpk⟩ := firstIdx_some_mem hfi
      have hle : ek ≤ it.startMin := of_decide_eq_true hpk
      have hklen : k < ends.length := (List.getElem?_eq_some.mp hek).1
      obtain ⟨ihpw, ihaux⟩ := ih hdrest (ends.set k (itemEnd it))
      rw [greedy_cons_some hfi]
      constructor
      · refine List.Pairwise.cons ?_ ihpw
        intro q hq hqk
        refine ihaux q hq (itemEnd it) ?_
        rw [← hqk]
        exact List.getElem?_set_self hklen
      · intro p hp e hpe
        rcases List.mem_cons.mp hp with rfl | hp'
        · have hpe' : ends[k]? = some e := hpe
          rw [hek] at hpe'
          rw [(Option.some.inj hpe').symm]
          exact hle
        · by_cases hk2 : p.2 = k
          · have h1 : e = ek := by
              rw [hk2, hek] at hpe
              exact (Option.some.inj hpe).symm
            have h2 : itemEnd it ≤ p.1.startMin := by
              refine ihaux p hp' (itemEnd it) ?_
              rw [hk2]
              exact List.getElem?_set_self hklen
            have h3 : itemEnd it = it.startMin + it.durationMin := rfl
            omega
          · refine ihaux p hp' e ?_
            rw [List.getElem?_set_ne fun hh => hk2 hh.symm]
            exact hpe
    | none =>
      obtain ⟨ihpw, ihaux⟩ := ih hdrest (ends ++ [itemEnd it])
      rw [greedy_cons_none hfi]
      constructor
      · refine List.Pairwise.cons ?_ ihpw
        intro q hq hqk
        refine ihaux q hq (itemEnd it) ?_
        rw [← hqk]
        exact List.getElem?_concat_length ends (itemEnd it)
      · intro p hp e hpe
        rcases List.mem_cons.mp hp with rfl | hp'
        · have hnone : ends[ends.length]? = none := List.getElem?_eq_none (le_refl _)
          have hpe' : ends[ends.length]? = some e := hpe
          rw [hnone] at hpe'
          cases hpe'
        · have hlt : p.2 < ends.length := (List.getElem?_eq_some.mp hpe).1
          refine ihaux p hp' e ?_
          rw [List.getElem?_append_left hlt]
          exact hpe

/-- Every recorded lane end is the end of some placement in that lane (or was
already recorded before the sweep started). -/
theorem greedy_ends_spec : ∀ (l : List Item) (ends : List Int) (k : Nat) (e : Int),
    (greedy l ends).2[k]? = some e →
      (∃ p ∈ (greedy l ends).1, p.2 = k ∧ itemEnd p.1 = e) ∨ ends[k]? = some e := by
  intro l
  induction l with
  | nil =>
    intro ends k e h
    exact Or.inr h
  | cons it rest ih =>
    intro ends k e h
    cases hfi : firstIdx (fun e => decide (e ≤ it.startMin)) ends with
    | some k0 =>
      obtain ⟨ek, hek, -⟩ := firstIdx_some_mem hfi
      have hk0len : k0 < ends.length := (List.getElem?_eq_some.mp hek).1
      rw [greedy_cons_some hfi] at h ⊢
      rcases ih (ends.set k0 (itemEnd it)) k e h with ⟨p, hp, hpk, hpe⟩ | hrest
      · exact Or.inl ⟨p, List.mem_cons_of_mem _ hp, hpk, hpe⟩
      · by_cases hkk : k = k0
        · subst hkk
          rw [List.getElem?_set_self hk0len] at hrest
          exact Or.inl ⟨(it, k), List.mem_cons_self _ _, rfl, Option.some.inj hrest⟩
        · rw [List.getElem?_set_ne fun hh => hkk hh.symm] at hrest
          exact Or.inr hrest
    | none =>
      rw [greedy_cons_none hfi] at h ⊢
      rcases ih (ends ++ [itemEnd it]) k e h with ⟨p, hp, hpk, hpe⟩ | hrest
      · exact Or.inl ⟨p, List.mem_cons_of_mem _ hp, hpk, hpe⟩
      · by_cases hkk : k = ends.length
        · subst hkk
          rw [List.getElem?_concat_length] at hrest
          exact Or.inl ⟨(it, ends.length), List.mem_cons_self _ _, rfl, Option.some.inj hrest⟩
        · have hk : k < (ends ++ [itemEnd it]).length := (List.getElem?_eq_some.mp hrest).1
          have hklen : k < ends.length := by
            simp at hk
            omega
          rw [List.getElem?_append_left hklen] at hrest
          exact Or.inr hrest

/-- When the sweep opens at least one new lane, the input splits at the item
that opened the last one: no recorded lane end at that point is `≤` its start,
and no further lane is opened afterwards. -/
theorem greedy_new_lane_split : ∀ (l : List Item) (ends : List Int),
    ends.length < (greedy l ends).2.length →
      ∃ l1 it l2, l = l1 ++ it :: l2
        ∧ firstIdx (fun e => decide (e ≤ it.startMin)) (greedy l1 ends).2 = none
        ∧ (greedy l ends).2.length = (greedy l1 ends).2.length + 1 := by
  intro l
  induction l with
  | nil =>
    intro ends h
    exact absurd h (lt_irrefl _)
  | cons it rest ih =>
    intro ends h
    cases hfi : firstIdx (fun e => decide (e ≤ it.startMin)) ends with
    | some k =>
      rw [greedy_cons_some hfi] at h
      have h' : (ends.set k (itemEnd it)).length <
          (greedy rest (ends.set k (itemEnd it))).2.length := by
        rwa [List.length_set]
      obtain ⟨l1, it2, l2, hsplit, hnone, hlen⟩ := ih (ends.set k (itemEnd it)) h'
      refine ⟨it :: l1, it2, l2, by rw [hsplit, List.cons_append], ?_, ?_⟩
      · rw [greedy_cons_some hfi]
        exact hnone
      · rw [greedy_cons_some hfi, greedy_cons_some hfi]
        exact hlen
    | none =>
      rw [greedy_cons_none hfi] at h
      by_cases h2 : (ends ++ [itemEnd it]).length <
          (greedy rest (ends ++ [itemEnd it])).2.length
      · obtain ⟨l1, it2, l2, hsplit, hnone, hlen⟩ := ih _ h2
        refine ⟨it :: l1, it2, l2, by rw [hsplit, List.cons_append], ?_, ?_⟩
        · rw [greedy_cons_none hfi]
          exact hnone
        · rw [greedy_cons_none hfi, greedy_cons_none hfi]
          exact hlen
      · have hge := greedy_ends_len rest (ends ++ [itemEnd it])
        have h3 : (ends ++ [itemEnd it]).length = ends.length + 1 := by simp
        have heq : (greedy rest (ends ++ [itemEnd it])).2.length = ends.length + 1 := by
          omega
        refine ⟨[], it, rest, rfl, hfi, ?_⟩
        rw [greedy_cons_none hfi]
        show (greedy rest (ends ++ [itemEnd it])).2.length = ends.length + 1
        exact heq

/-- Counting items by a predicate equals counting placements by it. -/
theorem countP_fst (l : List Item) (ends : List Int) (p : Item → Bool) :
    l.countP p = ((greedy l ends).1).countP (fun q => p q.1) := by
  have h := congrArg (List.countP p) (greedy_fst_map l ends)
  rw [List.countP_map] at h
  exact h.symm

/-- At every instant, the number of active items is at most the number of
lanes the sweep opened. -/
theorem depth_le_lanesUsed (items : List Item) (hd : ∀ a ∈ items, 0 ≤ a.durationMin)
    (t : Int) : depth items t ≤ lanesUsed items := by
  have hperm : (sortForLanes items).Perm items := List.perm_insertionSort _ _
  have hd2 : ∀ a ∈ sortForLanes items, 0 ≤ a.durationMin := fun a ha =>
    hd a (hperm.subset ha)
  have h1 : depth items t = depth (sortForLanes items) t :=
    (hperm.countP_eq _).symm
  have h2 : depth (sortForLanes items) t =
      ((greedy (sortForLanes items) []).1).countP (fun p => activeAt t p.1) :=
    countP_fst (sortForLanes items) [] (activeAt t)
  set T := ((greedy (sortForLanes items) []).1).filter (fun p => activeAt t p.1) with hT
  have h3 : ((greedy (sortForLanes items) []).1).countP (fun p => activeAt t p.1) = T.length :=
    List.countP_eq_length_filter _ _
  have hpw := (greedy_pairwise (sortForLanes items) hd2 []).1
  have hTpw : T.Pairwise (fun p q : Item × Nat => p.2 = q.2 → itemEnd p.1 ≤ q.1.startMin) :=
    hpw.filter _
  have hTne : T.Pairwise (fun p q : Item × Nat => p.2 ≠ q.2) := by
    refine List.Pairwise.imp_of_mem ?_ hTpw
    intro p q hpmem hqmem himp heq
    have hp := List.of_mem_filter hpmem
    have hq := List.of_mem_filter hqmem
    have h4 := himp heq
    simp [activeAt] at hp hq
    omega
  have hnodup : (T.map (fun p => p.2)).Nodup := by
    refine List.Pairwise.map _ ?_ hTne
    intro a b hab
    exact hab
  have hsub : (T.map (fun p => p.2)).toFinset ⊆ Finset.range (lanesUsed items) := by
    intro x hx
    rw [List.mem_toFinset] at hx
    obtain ⟨p, hpT, rfl⟩ := List.mem_map.mp hx
    exact Finset.mem_range.mpr (greedy_lane_lt _ _ p (List.mem_of_mem_filter hpT))
  have hcard : (T.map (fun p => p.2)).toFinset.card = (T.map (fun p => p.2)).length :=
    List.toFinset_card_of_nodup hnodup
  have h5 : (T.map (fun p => p.2)).toFinset.card ≤ lanesUsed items := by
    have hle := Finset.card_le_card hsub
    simpa using hle
  have h6 : (T.map (fun p => p.2)).length = T.length := by simp
  omega

/-- Some instant attains the number of lanes the sweep opened: the start of
the item that opened the last lane. -/
theorem exists_depth_eq_lanesUsed (items : List Item)
    (hpos : ∀ a ∈ items, 0 < a.durationMin) :
    ∃ t : Int, depth items t = lanesUsed items := by
  have hperm : (sortForLanes items).Perm items := List.perm_insertionSort _ _
  have hd : ∀ a ∈ items, 0 ≤ a.durationMin := fun a ha => (hpos a ha).le
  by_cases h0 : lanesUsed items = 0
  · refine ⟨0, ?_⟩
    rw [h0]
    have hps : (greedy (sortForLanes items) []).1 = [] := by
      cases hps1 : (greedy (sortForLanes items) []).1 with
      | nil => rfl
      | cons p rest =>
        have hlt := greedy_lane_lt (sortForLanes items) [] p
          (by rw [hps1]; exact List.mem_cons_self _ _)
        have hzero : (greedy (sortForLanes items) []).2.length = 0 := h0
        omega
    have hsortednil : sortForLanes items = [] := by
      have hmap := greedy_fst_map (sortForLanes items) []
      rw [hps] at hmap
      exact hmap.symm
    have hitems : items = [] := by
      rw [hsortednil] at hperm
      exact (hperm.symm).eq_nil
    rw [hitems]
    rfl
  · have hlt : 0 < lanesUsed items := Nat.pos_of_ne_zero h0
    have hlt' : ([] : List Int).length < (greedy (sortForLanes items) []).2.length := by
      simpa using hlt
    obtain ⟨l1, it, l2, hsplit, hnone, hlen⟩ :=
      greedy_new_lane_split (sortForLanes items) [] hlt'
    refine ⟨it.startMin, le_antisymm (depth_le_lanesUsed items hd it.startMin) ?_⟩
    have hsorted : (sortForLanes items).Sorted laneRel := List.sorted_insertionSort _ _
    have hit_mem_sorted : it ∈ sortForLanes items := by
      rw [hsplit]
      exact List.mem_append_right _ (List.mem_cons_self _ _)
    have hit_mem : it ∈ items := hperm.subset hit_mem_sorted
    have hdit : 0 < it.durationMin := hpos it hit_mem
    have hstart : ∀ a ∈ l1, a.startMin ≤ it.startMin := by
      rw [hsplit, List.Sorted, List.pairwise_append] at hsorted
      obtain ⟨-, -, hcross⟩ := hsorted
      intro a ha
      exact laneRel_start_le (hcross a ha it (List.mem_cons_self _ _))
    have hL : lanesUsed items = (greedy l1 []).2.length + 1 := hlen
    have hgt : ∀ e ∈ (greedy l1 []).2, it.startMin < e := by
      intro e he
      have hfe := firstIdx_none hnone e he
      simp at hfe
      omega
    have hwit : ∀ k, k < (greedy l1 []).2.length →
        ∃ p ∈ (greedy l1 []).1, p.2 = k ∧ activeAt it.startMin p.1 = true := by
      intro k hk
      have hek : (greedy l1 []).2[k]? = some ((greedy l1 []).2.get ⟨k, hk⟩) := by
        rw [List.get_eq_getElem]
        exact List.getElem?_eq_getElem hk
      rcases greedy_ends_spec l1 [] k _ hek with ⟨p, hp, hpk, hpe⟩ | hbad
      · refine ⟨p, hp, hpk, ?_⟩
        have hp1 : p.1 ∈ l1 := by
          have hmap := greedy_fst_map l1 []
          rw [← hmap]
          exact List.mem_map_of_mem Prod.fst hp
        have hs := hstart p.1 hp1
        have hke : it.startMin < (greedy l1 []).2.get ⟨k, hk⟩ :=
          hgt _ (List.get_mem _ _ hk)
        simp only [activeAt, Bool.and_eq_true, decide_eq_true_eq]
        omega
      · simp at hbad
    have hact : activeAt it.startMin it = true := by
      simp only [activeAt, itemEnd, Bool.and_eq_true, decide_eq_true_eq]
      omega
    have hcount_it : (it :: l2).countP (activeAt it.startMin) =
        l2.countP (activeAt it.startMin) + 1 := by
      rw [List.countP_cons, hact]
      simp
    have hcnt1 : (greedy l1 []).2.length ≤ l1.countP (activeAt it.startMin) := by
      have hmap : l1.countP (activeAt it.startMin) =
          ((greedy l1 []).1).countP (fun p => activeAt it.startMin p.1) :=
        countP_fst l1 [] (activeAt it.startMin)
      set T1 := ((greedy l1 []).1).filter (fun p => activeAt it.startMin p.1) with hT1
      have hlenT : ((greedy l1 []).1).countP (fun p => activeAt it.startMin p.1) = T1.length :=
        List.countP_eq_length_filter _ _
      have hsub : Finset.range ((greedy l1 []).2.length) ⊆ (T1.map (fun p => p.2)).toFinset := by
        intro k hk
        rw [Finset.mem_range] at hk
        obtain ⟨p, hpps, hpk, hpact⟩ := hwit k hk
        rw [List.mem_toFinset]
        exact List.mem_map.mpr ⟨p, List.mem_filter.mpr ⟨hpps, hpact⟩, hpk⟩
      have hc1 := Finset.card_le_card hsub
      rw [Finset.card_range] at hc1
      have hc2 : (T1.map (fun p => p.2)).toFinset.card ≤ (T1.map (fun p => p.2)).length :=
        List.toFinset_card_le _
      have hc3 : (T1.map (fun p => p.2)).length = T1.length := by simp
      omega
    have htotal : depth items it.startMin =
        l1.countP (activeAt it.startMin) + (it :: l2).countP (activeAt it.startMin) := by
      have h1 : depth items it.startMin = depth (sortForLanes items) it.startMin :=
        (hperm.countP_eq _).symm
      rw [h1, depth, hsplit]
      exact List.countP_append _ _ _
    omega

/-- Claim C2: for every finite set of items (schedule items have positive
durations), the greedy sweep assigns lanes so that no two items in the same
lane have overlapping `[start, start+duration)` ranges, and the number of
lanes used (`laneEnds.length`; `lanesCount` is this clamped to at least 1 for
rendering) equals the maximum number of items simultaneously active at any
instant; in particular the touching items `[0,30)`, `[30,60)` share one lane
and the three mutually overlapping items `[0,30)`, `[10,40)`, `[20,50)` get
exactly 3 lanes. -/
theorem laneAssignment_correct (items : List Item)
    (hpos : ∀ it ∈ items, 0 < it.durationMin) :
    ((laneLayout items).placed.Pairwise fun p q => p.2 = q.2 → ¬ overlaps p.1 q.1)
    ∧ (∀ t : Int, depth items t ≤ lanesUsed items)
    ∧ (∃ t : Int, depth items t = lanesUsed items)
    ∧ lanesUsed exTouch = 1
    ∧ lanesUsed exTriple = 3 := by
  have hd : ∀ a ∈ items, 0 ≤ a.durationMin := fun a ha => (hpos a ha).le
  have hd2 : ∀ a ∈ sortForLanes items, 0 ≤ a.durationMin := fun a ha =>
    hd a ((List.perm_insertionSort laneRel items).subset ha)
  refine ⟨?_, fun t => depth_le_lanesUsed items hd t, exists_depth_eq_lanesUsed items hpos,
    by decide, by decide⟩
  have hpw := (greedy_pairwise (sortForLanes items) hd2 []).1
  refine hpw.imp ?_
  intro p q h heq
  rintro ⟨t, hp, hq⟩
  have h4 := h heq
  simp [activeAt] at hp hq
  omega

/-- Witness for C2 on the three-item mutually overlapping example. -/
theorem laneAssignment_correct_witness :
    (∀ it ∈ exTriple, 0 < it.durationMin) ∧
      (((laneLayout exTriple).placed.Pairwise fun p q => p.2 = q.2 → ¬ overlaps p.1 q.1)
        ∧ (∀ t : Int, depth exTriple t ≤ lanesUsed exTriple)
        ∧ (∃ t : Int, depth exTriple t = lanesUsed exTriple)
        ∧ lanesUsed exTouch = 1
        ∧ lanesUsed exTriple = 3) :=
  ⟨by decide, laneAssignment_correct exTriple (by decide)⟩

/-- Claim C10: the derived lane layout assigns a lane to every item id of the
list, every assigned index lies below `lanesCount`, and `lanesCount` is at
least 1 even for the empty list. -/
theorem laneLayout_assigns_all (items : List Item) :
    1 ≤ (laneLayout items).lanesCount
    ∧ ∀ it ∈ items, ∃ k, byId items it.id = some k ∧ k < (laneLayout items).lanesCount := by
  constructor
  · exact le_max_left 1 _
  · intro it hit
    have hit2 : it ∈ sortForLanes items :=
      (List.perm_insertionSort laneRel items).mem_iff.mpr hit
    have hmem : it ∈ ((greedy (sortForLanes items) []).1).map Prod.fst := by
      rw [greedy_fst_map]
      exact hit2
    obtain ⟨p, hp, hpfst⟩ := List.mem_map.mp hmem
    have hrev : p ∈ (laneLayout items).placed.reverse := List.mem_reverse.mpr hp
    have hpred : (fun q : Item × Nat => decide (q.1.id = it.id)) p = true := by
      simp [hpfst]
    have hsome : ((laneLayout items).placed.reverse.find?
        fun q => decide (q.1.id = it.id)).isSome = true :=
      List.find?_isSome.mpr ⟨p, hrev, hpred⟩
    obtain ⟨q, hq⟩ := Option.isSome_iff_exists.mp hsome
    refine ⟨q.2, ?_, ?_⟩
    · rw [byId, hq]
      rfl
    · have hqmem : q ∈ (laneLayout items).placed.reverse := List.mem_of_find?_eq_some hq
      have hqmem2 : q ∈ (laneLayout items).placed := List.mem_reverse.mp hqmem
      have hltq := greedy_lane_lt (sortForLanes items) [] q hqmem2
      exact hltq.trans_le (le_max_right 1 _)

/-- Witness for C10 on the three-item example. -/
theorem laneLayout_assigns_all_witness :
    itemK ∈ exTriple ∧
      ∃ k, byId exTriple itemK.id = some k ∧ k < (laneLayout exTriple).lanesCount :=
  ⟨by decide, (laneLayout_assigns_all exTriple).2 itemK (by decide)⟩

end DayFlow
